import Mathlib

/-!
Shallow embedding of `src/researchllm.py` (ResearchAgent).

Strings are modelled as `List Char`.  Python's `re.split`, `str.split`,
`str.strip`, `str.startswith` and dict insertion are embedded faithfully
below; the random sampler is parameterised by an explicit stream of
choices, and the HTTP client by a transport oracle.
-/

namespace ResearchAgent

/-- Python whitespace (`\s`, and the default `str.strip` set), ASCII part. -/
def isPySpace (c : Char) : Bool :=
  c = ' ' ∨ c = '\t' ∨ c = '\n' ∨ c = '\r' ∨ c = '\x0b' ∨ c = '\x0c'

/-- Python `str.strip()` : drop leading and trailing whitespace. -/
def pyStrip (s : List Char) : List Char :=
  ((s.dropWhile isPySpace).reverse.dropWhile isPySpace).reverse

/-- Python `str.strip(t)` for a one-character set `t` (used as `.strip('*')`). -/
def pyStripChar (t : Char) (s : List Char) : List Char :=
  ((s.dropWhile (· = t)).reverse.dropWhile (· = t)).reverse

/-- Python `str.startswith` on char lists. -/
def pyStartsWith : List Char → List Char → Bool
  | [], _ => true
  | _ :: _, [] => false
  | a :: as, b :: bs => a = b && pyStartsWith as bs

/-- Prepend a character to the first element of a split result. -/
def consHead (c : Char) : List (List Char) → List (List Char)
  | [] => [[c]]
  | h :: t => (c :: h) :: t

/-- Python `str.split(sep)` for a one-character separator (keeps empty parts). -/
def pySplitChar (sep : Char) : List Char → List (List Char)
  | [] => [[]]
  | c :: rest =>
    if c = sep then [] :: pySplitChar sep rest
    else consHead c (pySplitChar sep rest)

/-- Python `str.split(sep)` for a separator `s0 :: s1` (nonempty), leftmost
non-overlapping occurrences. -/
def pySplitSub (s0 : Char) (s1 : List Char) : List Char → List (List Char)
  | [] => [[]]
  | c :: rest =>
    if pyStartsWith (s0 :: s1) (c :: rest) then
      [] :: pySplitSub s0 s1 ((c :: rest).drop (s1.length + 1))
    else
      consHead c (pySplitSub s0 s1 rest)
termination_by s => s.length
decreasing_by
  · simp only [List.drop_succ_cons, List.length_drop, List.length_cons]
    omega
  · simp

/-- One match attempt of the regex `\*\*\d+\.\s+` at the head of the text:
`**`, one or more digits (greedy), a literal `.`, one or more whitespace
characters (greedy).  Returns the remainder after the match. -/
def markerMatch : List Char → Option (List Char)
  | c1 :: c2 :: rest =>
    if c1 = '*' ∧ c2 = '*' then
      if rest.takeWhile Char.isDigit = [] then none
      else
        match rest.dropWhile Char.isDigit with
        | c3 :: rest2 =>
          if c3 = '.' then
            if rest2.takeWhile isPySpace = [] then none
            else some (rest2.dropWhile isPySpace)
          else none
        | [] => none
    else none
  | _ => none

/-- Lemma: `markerMatch` consumes at least five characters. -/
theorem markerMatch_shrinks {cs after : List Char}
    (h : markerMatch cs = some after) : after.length < cs.length := by
  match cs with
  | [] => simp [markerMatch] at h
  | [c] => simp [markerMatch] at h
  | c1 :: c2 :: rest =>
    simp only [markerMatch] at h
    by_cases hstar : c1 = '*' ∧ c2 = '*'
    · rw [if_pos hstar] at h
      by_cases hd : rest.takeWhile Char.isDigit = []
      · simp [hd] at h
      · rw [if_neg hd] at h
        rcases hrest : rest.dropWhile Char.isDigit with _ | ⟨c3, rest2⟩
        · rw [hrest] at h; simp at h
        · rw [hrest] at h
          dsimp only at h
          by_cases hdot : c3 = '.'
          · rw [if_pos hdot] at h
            by_cases hws : rest2.takeWhile isPySpace = []
            · simp [hws] at h
            · rw [if_neg hws] at h
              have hle : (rest2.dropWhile isPySpace).length ≤ rest2.length :=
                (List.dropWhile_sublist isPySpace).length_le
              have hle2 : rest2.length < rest.length := by
                have hlen := (List.dropWhile_sublist Char.isDigit
                  (l := rest)).length_le
                rw [hrest] at hlen
                simp only [List.length_cons] at hlen
                omega
              simp only [Option.some.injEq] at h
              subst h
              simp only [List.length_cons]
              omega
          · rw [if_neg hdot] at h; exact absurd h (by simp)
    · rw [if_neg hstar] at h; exact absurd h (by simp)

/-- Python `re.split(r'\*\*\d+\.\s+', text)` : scan left to right, splitting at each
leftmost match. -/
def splitMarkers : List Char → List (List Char)
  | [] => [[]]
  | c :: rest =>
    match h : markerMatch (c :: rest) with
    | some after => [] :: splitMarkers after
    | none => consHead c (splitMarkers rest)
termination_by s => s.length
decreasing_by
  · exact markerMatch_shrinks h
  · simp

/-- The `details` dictionary built for one category: three optional fields. -/
structure CategoryRecord where
  description : Option (List Char)
  research_prompt : Option (List Char)
  key_concepts : Option (List (List Char))
deriving DecidableEq, Repr

/-- The empty `details` dictionary. -/
def emptyRecord : CategoryRecord := ⟨none, none, none⟩

/-- The `research_dict` : an insertion-ordered dictionary, as Python's `dict`. -/
abbrev CategoryMap := List (List Char × CategoryRecord)

/-- Python `d[k] = v` : overwrite in place if the key exists, else append. -/
def dictInsert (m : CategoryMap) (k : List Char) (v : CategoryRecord) :
    CategoryMap :=
  match m with
  | [] => [(k, v)]
  | (k', v') :: rest =>
    if k' = k then (k, v) :: rest else (k', v') :: dictInsert rest k v

/-- Python `d[k]` lookup (first, and only, binding of `k`). -/
def dictGet (m : CategoryMap) (k : List Char) : Option CategoryRecord :=
  match m with
  | [] => none
  | (k', v') :: rest => if k' = k then some v' else dictGet rest k

/-- The label `'**Description:**'` (tail; the head `'*'` is passed apart). -/
def descLabelTail : List Char := "*Description:**".toList

/-- The label `'**Research Prompt:**'` (tail). -/
def promptLabelTail : List Char := "*Research Prompt:**".toList

/-- The label `'**Key Concepts:**'` (tail). -/
def conceptsLabelTail : List Char := "*Key Concepts:**".toList

/-- The body of the `for line in lines[1:]` loop of
`parse_research_categories`: the `if/elif` chain updating `details`. -/
def scanLine (details : CategoryRecord) (line : List Char) : CategoryRecord :=
  if pyStartsWith ("* **Description:**".toList) line then
    let v := pyStrip ((pySplitSub '*' descLabelTail line).getD 1 [])
    { details with description := some v }
  else if pyStartsWith ("* **Research Prompt:**".toList) line then
    let v := pyStripChar '*'
      (pyStrip ((pySplitSub '*' promptLabelTail line).getD 1 []))
    { details with research_prompt := some v }
  else if pyStartsWith ("* **Key Concepts:**".toList) line then
    let v := (pySplitChar ','
      (pyStrip ((pySplitSub '*' conceptsLabelTail line).getD 1 []))).map pyStrip
    { details with key_concepts := some v }
  else details

/-- The per-segment body of `parse_research_categories`: strip, split into
lines, take the first line (stripped of `*`) as the name, scan the rest. -/
def parseCategory (research_dict : CategoryMap) (category : List Char) :
    CategoryMap :=
  let lines := pySplitChar '\n' (pyStrip category)
  let category_name := pyStripChar '*' (lines.headD [])
  let details := (lines.drop 1).foldl scanLine emptyRecord
  dictInsert research_dict category_name details

/-- Function `parse_research_categories(text)` from `src/researchllm.py`. -/
def parse_research_categories (text : List Char) : CategoryMap :=
  ((splitMarkers text).drop 1).foldl parseCategory []

/-- Python `random.choice(xs)` driven by an external random draw `r`: an element
of `xs` when `xs` is nonempty, and `none` (Python: `IndexError`) on `[]`. -/
def randChoice {α : Type} (xs : List α) (r : Nat) : Option α :=
  xs.get? (r % xs.length)

/-- The synthesized prompt template of `generate_research_prompts`
(including the `.lower()` calls on concept and category). -/
def synthPrompt (concept category : List Char) : List Char :=
  "How can ".toList ++ concept.map Char.toLower
    ++ " be applied in ".toList ++ category.map Char.toLower
    ++ " to improve solar farm efficiency?".toList

/-- One iteration of the loop of `generate_research_prompts`, driven by one
random draw `(category index, coin, concept index)`.  `none` models an
uncaught Python exception (`IndexError` from `random.choice` on an empty
sequence, `KeyError` from a missing `details` key). -/
def sampleOne (research_dict : CategoryMap) (step : Nat × Bool × Nat) :
    Option (List Char) :=
  match randChoice (research_dict.map Prod.fst) step.1 with
  | none => none
  | some category =>
    match dictGet research_dict category with
    | none => none
    | some category_data =>
      if step.2.1 then
        category_data.research_prompt
      else
        match category_data.key_concepts with
        | none => none
        | some concepts =>
          (randChoice concepts step.2.2).map (fun concept =>
            synthPrompt concept category)

/-- The loop of `generate_research_prompts`, iteration `i`, `n` rounds left;
a `none` from any round aborts the whole call (the exception propagates). -/
def genGo (research_dict : CategoryMap) (r : Nat → Nat × Bool × Nat)
    (i : Nat) : Nat → Option (List (List Char))
  | 0 => some []
  | n + 1 =>
    match sampleOne research_dict (r i) with
    | none => none
    | some p => (genGo research_dict r (i + 1) n).map (fun ps => p :: ps)

/-- Function `generate_research_prompts(research_dict, num_prompts)` from
`src/researchllm.py`, with the random stream `r` made explicit. -/
def generate_research_prompts (research_dict : CategoryMap)
    (num_prompts : Nat) (r : Nat → Nat × Bool × Nat) :
    Option (List (List Char)) :=
  genGo research_dict r 0 num_prompts

/-- One citation object of a Perplexity response (`{"url": ...}`). -/
structure Citation where
  url : List Char
deriving DecidableEq, Repr

/-- The part of a successful Perplexity JSON response that the program
reads: `choices[0].message.content` and the optional `citations` array. -/
structure PerplexityResponse where
  content : List Char
  citations : List Citation
deriving DecidableEq, Repr

/-- Function `format_output(response)` from `src/researchllm.py`; `none` is the
sentinel returned by `query_perplexity` on failure. -/
def format_output : Option PerplexityResponse → List Char
  | none => "No response received from Perplexity AI.".toList
  | some response =>
    "\nResearch Results:\n\n".toList ++ response.content
      ++ "\n\nSources:\n".toList
      ++ response.citations.foldl
          (fun acc citation => acc ++ "- ".toList ++ citation.url ++ ['\n'])
          []

/-- The request that `query_perplexity` builds (URL, bearer token, JSON
body fields, and the `timeout=30` keyword of `requests.post`). -/
structure PerplexityRequest where
  url : List Char
  bearer : List Char
  model : List Char
  system_message : List Char
  user_message : List Char
  max_tokens : Nat
  temperature_times_ten : Nat
  return_citations : Bool
  timeout : Nat
deriving DecidableEq, Repr

/-- Outcome of one `requests.post`: an HTTP response with a status code and
a parsed JSON body, or a raised `requests.RequestException`. -/
inductive TransportResult where
  | ok (status : Nat) (body : PerplexityResponse)
  | exn (msg : List Char)

/-- The request value built by `query_perplexity(prompt, api_key)`. -/
def perplexityRequest (prompt api_key : List Char) : PerplexityRequest :=
  { url := "https://api.perplexity.ai/chat/completions".toList
    bearer := api_key
    model := "llama-3.1-sonar-small-128k-online".toList
    system_message := "You are a helpful research assistant.".toList
    user_message := prompt
    max_tokens := 2000
    temperature_times_ten := 2
    return_citations := true
    timeout := 30 }

/-- Function `query_perplexity(prompt, api_key)` from `src/researchllm.py`, with the
network made explicit as a `transport` oracle.  Returns the result together
with the trace of requests issued.  `response.raise_for_status()` raises
for status codes in `[400, 600)`; that exception and any transport
exception are caught by the `except requests.RequestException` clause,
which returns the sentinel `none`. -/
def query_perplexity (transport : PerplexityRequest → TransportResult)
    (prompt api_key : List Char) :
    Option PerplexityResponse × List PerplexityRequest :=
  match transport (perplexityRequest prompt api_key) with
  | .ok status body =>
    if 400 ≤ status ∧ status < 600 then
      (none, [perplexityRequest prompt api_key])
    else (some body, [perplexityRequest prompt api_key])
  | .exn _ => (none, [perplexityRequest prompt api_key])

/-! ## Unfolding lemmas for the splitters -/

theorem splitMarkers_nil : splitMarkers [] = [[]] := by
  simp [splitMarkers]

theorem splitMarkers_cons_none {c : Char} {rest : List Char}
    (h : markerMatch (c :: rest) = none) :
    splitMarkers (c :: rest) = consHead c (splitMarkers rest) := by
  rw [splitMarkers]
  split
  · rename_i after heq; rw [h] at heq; exact absurd heq (by simp)
  · rfl

theorem splitMarkers_cons_some {c : Char} {rest after : List Char}
    (h : markerMatch (c :: rest) = some after) :
    splitMarkers (c :: rest) = [] :: splitMarkers after := by
  rw [splitMarkers]
  split
  · rename_i after' heq; rw [h] at heq
    simp only [Option.some.injEq] at heq
    rw [heq]
  · rename_i heq; rw [h] at heq; exact absurd heq (by simp)

/-- A text in which no suffix matches the marker regex splits into itself. -/
theorem splitMarkers_of_no_marker {text : List Char}
    (h : ∀ t ∈ text.tails, markerMatch t = none) :
    splitMarkers text = [text] := by
  induction text with
  | nil => exact splitMarkers_nil
  | cons c rest ih =>
    have hc : markerMatch (c :: rest) = none :=
      h (c :: rest) (by simp [List.tails_cons])
    rw [splitMarkers_cons_none hc]
    rw [ih (fun t ht => h t (by simp [List.tails_cons, ht]))]
    rfl

/-! ## Marker-freeness: no suffix of `xs` (continued by `ys`) matches -/

/-- No nonempty suffix of `xs`, continued by `ys`, matches the marker
regex.  This is what lets `splitMarkers` walk over `xs` unscathed. -/
def noMarkerSuffix (xs ys : List Char) : Prop :=
  ∀ t, t ≠ [] → t <:+ xs → markerMatch (t ++ ys) = none

theorem markerMatch_not_star {c : Char} (h : c ≠ '*') (rest : List Char) :
    markerMatch (c :: rest) = none := by
  cases rest with
  | nil => rfl
  | cons c2 rest2 => simp [markerMatch, h]

theorem markerMatch_not_star2 {c1 c2 : Char} (h : ¬(c1 = '*' ∧ c2 = '*'))
    (rest : List Char) : markerMatch (c1 :: c2 :: rest) = none := by
  simp only [markerMatch, if_neg h]

theorem markerMatch_not_digit {c1 c2 c3 : Char} (h : c3.isDigit = false)
    (rest : List Char) : markerMatch (c1 :: c2 :: c3 :: rest) = none := by
  by_cases h12 : c1 = '*' ∧ c2 = '*'
  · simp [markerMatch, h12, List.takeWhile_cons, h]
  · exact markerMatch_not_star2 h12 _

/-- A suffix is harmless whatever the continuation: its first characters
already refute the marker regex. -/
def sufOk3 : List Char → Bool
  | [] => true
  | [c] => decide (c ≠ '*')
  | [c1, c2] => decide (¬(c1 = '*' ∧ c2 = '*'))
  | c1 :: c2 :: c3 :: _ => decide (¬(c1 = '*' ∧ c2 = '*')) || !c3.isDigit

/-- A scaffolding string is safe when each of its suffixes is harmless. -/
def scafOk (s : List Char) : Bool := s.tails.all sufOk3

theorem sufOk3_sound {t : List Char} (h : sufOk3 t = true) (ht : t ≠ [])
    (ys : List Char) : markerMatch (t ++ ys) = none := by
  match t with
  | [] => exact absurd rfl ht
  | [c] =>
    simp only [sufOk3, decide_eq_true_eq] at h
    exact markerMatch_not_star h _
  | [c1, c2] =>
    simp only [sufOk3, decide_eq_true_eq] at h
    exact markerMatch_not_star2 h _
  | c1 :: c2 :: c3 :: t' =>
    simp only [sufOk3, Bool.or_eq_true, decide_eq_true_eq,
      Bool.not_eq_true'] at h
    rcases h with h | h
    · exact markerMatch_not_star2 h _
    · exact markerMatch_not_digit h _

theorem noMarkerSuffix_of_scafOk {s : List Char} (h : scafOk s = true)
    (ys : List Char) : noMarkerSuffix s ys := by
  intro t ht hsuf
  have hmem : t ∈ s.tails := (List.mem_tails t s).mpr hsuf
  have := List.all_eq_true.mp h t hmem
  exact sufOk3_sound this ht ys

theorem noMarkerSuffix_of_no_star {s : List Char}
    (h : ∀ c ∈ s, c ≠ '*') (ys : List Char) : noMarkerSuffix s ys := by
  intro t ht hsuf
  match t, ht with
  | c :: t', _ =>
    have hc : c ∈ s := hsuf.subset (List.mem_cons_self c t')
    exact markerMatch_not_star (h c hc) _

theorem noMarkerSuffix_append {a b ys : List Char}
    (ha : noMarkerSuffix a (b ++ ys)) (hb : noMarkerSuffix b ys) :
    noMarkerSuffix (a ++ b) ys := by
  induction a with
  | nil => simpa using hb
  | cons c a ih =>
    have ha' : noMarkerSuffix a (b ++ ys) := fun t ht hsuf =>
      ha t ht (hsuf.trans (List.suffix_cons c a))
    intro t ht hsuf
    rcases List.suffix_cons_iff.mp hsuf with h | h
    · subst h
      have := ha (c :: a) (by simp) (List.suffix_refl _)
      simpa [List.append_assoc] using this
    · exact ih ha' t ht h

/-- The marker regex matches at a block head `**D. ` (one digit, one
space), consuming exactly that, when the next character is not
whitespace. -/
theorem markerMatch_block {dch c : Char} (hd : dch.isDigit = true)
    (hc : isPySpace c = false) (rest : List Char) :
    markerMatch ('*' :: '*' :: dch :: '.' :: ' ' :: c :: rest)
      = some (c :: rest) := by
  have hdot : ('.' : Char).isDigit = false := by decide
  have hsp : isPySpace ' ' = true := by decide
  simp [markerMatch, List.takeWhile_cons, List.dropWhile_cons, hd, hdot,
    hsp, hc]

/-! ## Splitting a text assembled from marker-free pieces -/

/-- Prepend a whole string to the first element of a split result. -/
def consAll (xs : List Char) : List (List Char) → List (List Char)
  | [] => [xs]
  | h :: t => (xs ++ h) :: t

theorem consHead_consAll (c : Char) (xs : List Char)
    (l : List (List Char)) :
    consHead c (consAll xs l) = consAll (c :: xs) l := by
  cases l <;> rfl

theorem splitMarkers_ne_nil (s : List Char) : splitMarkers s ≠ [] := by
  cases s with
  | nil => rw [splitMarkers_nil]; simp
  | cons c rest =>
    rcases h : markerMatch (c :: rest) with _ | after
    · rw [splitMarkers_cons_none h]
      cases splitMarkers rest <;> simp [consHead]
    · rw [splitMarkers_cons_some h]
      simp

theorem splitMarkers_append {a ys : List Char} (ha : noMarkerSuffix a ys) :
    splitMarkers (a ++ ys) = consAll a (splitMarkers ys) := by
  induction a with
  | nil =>
    rcases h : splitMarkers ys with _ | ⟨hd, tl⟩
    · exact absurd h (splitMarkers_ne_nil ys)
    · simp [consAll, h]
  | cons c a ih =>
    have ha' : noMarkerSuffix a ys := fun t ht hsuf =>
      ha t ht (hsuf.trans (List.suffix_cons c a))
    have hm : markerMatch (c :: (a ++ ys)) = none := by
      have := ha (c :: a) (by simp) (List.suffix_refl _)
      simpa using this
    rw [List.cons_append, splitMarkers_cons_none hm, ih ha',
      consHead_consAll]

/-! ## The well-formed block shape used by C2 and C10 -/

/-- A content string that cannot disturb the parsing scaffolding: it
contains neither `*` nor a newline. -/
def cleanContent (s : List Char) : Prop := ∀ c ∈ s, c ≠ '*' ∧ c ≠ '\n'

/-- A clean content string that is nonempty and has no leading or trailing
whitespace (so `strip` leaves it alone). -/
def cleanEdged (s : List Char) : Prop :=
  s ≠ [] ∧ cleanContent s ∧ isPySpace (s.headD ' ') = false
    ∧ isPySpace (s.getLastD ' ') = false

instance (s : List Char) : Decidable (cleanContent s) := by
  unfold cleanContent
  infer_instance

instance (s : List Char) : Decidable (cleanEdged s) := by
  unfold cleanEdged
  exact instDecidableAnd

/-- The description line of a well-formed block body. -/
def descLine (d : List Char) : List Char :=
  "* **Description:** ".toList ++ d

/-- The research-prompt line of a well-formed block body. -/
def promptLine (p : List Char) : List Char :=
  "* **Research Prompt:** ".toList ++ p

/-- The key-concepts line of a well-formed block body. -/
def conceptsLine (k : List Char) : List Char :=
  "* **Key Concepts:** ".toList ++ k

/-- What follows a `**N. ` marker in a well-formed block: the category
name line, then the three labelled bullet lines, then the newline that
precedes the next marker (or ends the text). -/
def blockBody (name d p k : List Char) : List Char :=
  name ++ ('\n' :: descLine d) ++ ('\n' :: promptLine p)
    ++ ('\n' :: conceptsLine k) ++ ['\n']

/-- The `**N. ` marker for a one-digit block number. -/
def blockMarker (dch : Char) : List Char := ['*', '*', dch, '.', ' ']

theorem cleanContent_no_star {s : List Char} (h : cleanContent s) :
    ∀ c ∈ s, c ≠ '*' := fun c hc => (h c hc).1

theorem cleanContent_no_newline {s : List Char} (h : cleanContent s) :
    ∀ c ∈ s, c ≠ '\n' := fun c hc => (h c hc).2

theorem noMarkerSuffix_blockBody {name d p k : List Char} (ys : List Char)
    (hn : cleanContent name) (hd : cleanContent d) (hp : cleanContent p)
    (hk : cleanContent k) :
    noMarkerSuffix (blockBody name d p k) ys := by
  have sc1 : scafOk ('\n' :: "* **Description:** ".toList) = true := by
    decide
  have sc2 : scafOk ('\n' :: "* **Research Prompt:** ".toList) = true := by
    decide
  have sc3 : scafOk ('\n' :: "* **Key Concepts:** ".toList) = true := by
    decide
  have sc4 : scafOk ['\n'] = true := by decide
  unfold blockBody descLine promptLine conceptsLine
  have hker : noMarkerSuffix (k ++ ['\n']) ys :=
    noMarkerSuffix_append (noMarkerSuffix_of_no_star
      (cleanContent_no_star hk) _) (noMarkerSuffix_of_scafOk sc4 ys)
  have h3 : noMarkerSuffix (('\n' :: "* **Key Concepts:** ".toList)
      ++ (k ++ ['\n'])) ys :=
    noMarkerSuffix_append (noMarkerSuffix_of_scafOk sc3 _) hker
  have hp3 : noMarkerSuffix (p ++ (('\n' :: "* **Key Concepts:** ".toList)
      ++ (k ++ ['\n']))) ys :=
    noMarkerSuffix_append (noMarkerSuffix_of_no_star
      (cleanContent_no_star hp) _) h3
  have h2 : noMarkerSuffix (('\n' :: "* **Research Prompt:** ".toList)
      ++ (p ++ (('\n' :: "* **Key Concepts:** ".toList) ++ (k ++ ['\n']))))
      ys :=
    noMarkerSuffix_append (noMarkerSuffix_of_scafOk sc2 _) hp3
  have hd2 : noMarkerSuffix (d
      ++ (('\n' :: "* **Research Prompt:** ".toList)
        ++ (p ++ (('\n' :: "* **Key Concepts:** ".toList)
          ++ (k ++ ['\n']))))) ys :=
    noMarkerSuffix_append (noMarkerSuffix_of_no_star
      (cleanContent_no_star hd) _) h2
  have h1 : noMarkerSuffix (('\n' :: "* **Description:** ".toList)
      ++ (d ++ (('\n' :: "* **Research Prompt:** ".toList)
        ++ (p ++ (('\n' :: "* **Key Concepts:** ".toList)
          ++ (k ++ ['\n'])))))) ys :=
    noMarkerSuffix_append (noMarkerSuffix_of_scafOk sc1 _) hd2
  have hall : noMarkerSuffix (name
      ++ (('\n' :: "* **Description:** ".toList)
        ++ (d ++ (('\n' :: "* **Research Prompt:** ".toList)
          ++ (p ++ (('\n' :: "* **Key Concepts:** ".toList)
            ++ (k ++ ['\n']))))))) ys :=
    noMarkerSuffix_append (noMarkerSuffix_of_no_star
      (cleanContent_no_star hn) _) h1
  have heq : name ++ (('\n' :: "* **Description:** ".toList)
      ++ (d ++ (('\n' :: "* **Research Prompt:** ".toList)
        ++ (p ++ (('\n' :: "* **Key Concepts:** ".toList)
          ++ (k ++ ['\n']))))))
      = name ++ ('\n' :: ("* **Description:** ".toList ++ d))
        ++ ('\n' :: ("* **Research Prompt:** ".toList ++ p))
        ++ ('\n' :: ("* **Key Concepts:** ".toList ++ k)) ++ ['\n'] := by
    simp [List.append_assoc]
  rw [heq] at hall
  exact hall

/-! ## Lemmas on the Python string primitives -/

theorem dropWhile_cons_false {p : Char → Bool} {c : Char} (h : p c = false)
    (r : List Char) : (c :: r).dropWhile p = c :: r := by
  simp [List.dropWhile_cons, h]

theorem dropWhile_eq_self_of_all {p : Char → Bool} {s : List Char}
    (h : ∀ c ∈ s, p c = false) : s.dropWhile p = s := by
  cases s with
  | nil => rfl
  | cons c r => exact dropWhile_cons_false (h c (List.mem_cons_self c r)) r

theorem pyStrip_cons_space (d : List Char) :
    pyStrip (' ' :: d) = pyStrip d := by
  unfold pyStrip
  rw [List.dropWhile_cons]
  simp [show isPySpace ' ' = true from rfl]

/-- Python `strip()` leaves a string alone when its two ends are not whitespace. -/
theorem pyStrip_eq_self {s : List Char} (hne : s ≠ [])
    (hh : isPySpace (s.headD ' ') = false)
    (hl : isPySpace (s.getLastD ' ') = false) : pyStrip s = s := by
  unfold pyStrip
  have h1 : s.dropWhile isPySpace = s := by
    cases s with
    | nil => rfl
    | cons c r => exact dropWhile_cons_false (by simpa using hh) r
  rw [h1]
  have hdecomp := List.dropLast_concat_getLast hne
  have hlast : isPySpace (s.getLast hne) = false := by
    rw [← hdecomp] at hl
    rwa [List.getLastD_concat] at hl
  have h2 : s.reverse = s.getLast hne :: s.dropLast.reverse := by
    conv_lhs => rw [← hdecomp]
    simp
  rw [h2, dropWhile_cons_false hlast, List.reverse_cons,
    List.reverse_reverse, hdecomp]

/-- Python `strip()` on a well-formed block body: drops exactly the final
newline. -/
theorem pyStrip_block {n0 klast : Char} {mid : List Char}
    (h0 : isPySpace n0 = false) (hk : isPySpace klast = false) :
    pyStrip ((n0 :: mid) ++ [klast] ++ ['\n'])
      = (n0 :: mid) ++ [klast] := by
  unfold pyStrip
  have h1 : ((n0 :: mid) ++ [klast] ++ ['\n']).dropWhile isPySpace
      = (n0 :: mid) ++ [klast] ++ ['\n'] := by
    rw [List.cons_append, List.cons_append]
    exact dropWhile_cons_false h0 _
  rw [h1]
  have h2 : ((n0 :: mid) ++ [klast] ++ ['\n']).reverse
      = '\n' :: klast :: (n0 :: mid).reverse := by
    simp
  rw [h2, List.dropWhile_cons]
  simp only [show isPySpace '\n' = true from rfl, if_pos]
  rw [dropWhile_cons_false hk]
  simp

theorem pyStripChar_eq_self {t : Char} {s : List Char}
    (h : ∀ c ∈ s, c ≠ t) : pyStripChar t s = s := by
  unfold pyStripChar
  have hb : ∀ c ∈ s, decide (c = t) = false := fun c hc => by
    simp [h c hc]
  rw [dropWhile_eq_self_of_all hb,
    dropWhile_eq_self_of_all (fun c hc => hb c (List.mem_reverse.mp hc)),
    List.reverse_reverse]

theorem pySplitChar_ne_nil (sep : Char) (s : List Char) :
    pySplitChar sep s ≠ [] := by
  cases s with
  | nil => simp [pySplitChar]
  | cons c r =>
    by_cases h : c = sep
    · simp [pySplitChar, h]
    · simp only [pySplitChar, if_neg h]
      cases pySplitChar sep r <;> simp [consHead]

theorem pySplitChar_append {sep : Char} {a : List Char}
    (h : ∀ c ∈ a, c ≠ sep) (b : List Char) :
    pySplitChar sep (a ++ b) = consAll a (pySplitChar sep b) := by
  induction a with
  | nil =>
    rcases hb : pySplitChar sep b with _ | ⟨hd, tl⟩
    · exact absurd hb (pySplitChar_ne_nil sep b)
    · simp [consAll, hb]
  | cons c a ih =>
    have hc : ¬(c = sep) := h c (List.mem_cons_self c a)
    rw [List.cons_append]
    simp only [pySplitChar, if_neg hc]
    rw [ih (fun x hx => h x (List.mem_cons_of_mem c hx)),
      consHead_consAll]

theorem pySplitChar_glue {sep : Char} {a : List Char}
    (h : ∀ c ∈ a, c ≠ sep) (b : List Char) :
    pySplitChar sep (a ++ sep :: b) = a :: pySplitChar sep b := by
  rw [pySplitChar_append h]
  simp only [pySplitChar, if_pos rfl]
  cases hb : pySplitChar sep b with
  | nil => exact absurd hb (pySplitChar_ne_nil sep b)
  | cons hd tl => simp [consAll]

theorem pySplitChar_of_no_sep {sep : Char} {a : List Char}
    (h : ∀ c ∈ a, c ≠ sep) : pySplitChar sep a = [a] := by
  have := pySplitChar_append h []
  simpa [consAll, pySplitChar] using this

theorem pyStartsWith_self_append (a y : List Char) :
    pyStartsWith a (a ++ y) = true := by
  induction a with
  | nil => rfl
  | cons c a ih => simp [pyStartsWith, ih]

theorem pyStartsWith_of_longer {a : List Char} (b y : List Char)
    (h : a.length ≤ b.length) :
    pyStartsWith a (b ++ y) = pyStartsWith a b := by
  induction a generalizing b with
  | nil => rfl
  | cons c a ih =>
    cases b with
    | nil => simp at h
    | cons d b =>
      simp only [List.length_cons, Nat.succ_le_succ_iff] at h
      simp [pyStartsWith, ih b h]

theorem pyStartsWith_cons_same (c : Char) (as bs : List Char) :
    pyStartsWith (c :: as) (c :: bs) = pyStartsWith as bs := by
  simp [pyStartsWith]

theorem pyStartsWith_cons_diff {a b : Char} (h : a ≠ b)
    (as bs : List Char) : pyStartsWith (a :: as) (b :: bs) = false := by
  simp [pyStartsWith, h]

theorem pySplitSub_cons_true {s0 : Char} {s1 : List Char} {c : Char}
    {rest : List Char} (h : pyStartsWith (s0 :: s1) (c :: rest) = true) :
    pySplitSub s0 s1 (c :: rest)
      = [] :: pySplitSub s0 s1 ((c :: rest).drop (s1.length + 1)) := by
  rw [pySplitSub]
  simp [h]

theorem pySplitSub_cons_false {s0 : Char} {s1 : List Char} {c : Char}
    {rest : List Char} (h : pyStartsWith (s0 :: s1) (c :: rest) = false) :
    pySplitSub s0 s1 (c :: rest) = consHead c (pySplitSub s0 s1 rest) := by
  rw [pySplitSub]
  simp [h]

theorem pySplitSub_no_occ {s0 : Char} (s1 : List Char) {x : List Char}
    (h : ∀ c ∈ x, c ≠ s0) : pySplitSub s0 s1 x = [x] := by
  induction x with
  | nil => rw [pySplitSub]
  | cons c rest ih =>
    have hc : c ≠ s0 := h c (List.mem_cons_self c rest)
    have hsw : pyStartsWith (s0 :: s1) (c :: rest) = false := by
      exact pyStartsWith_cons_diff (fun he => hc he.symm) _ _
    rw [pySplitSub_cons_false hsw,
      ih (fun x hx => h x (List.mem_cons_of_mem c hx))]
    rfl

/-- Splitting a well-formed labelled line `* **Label:** content` on the
label `**Label:**` yields `["* ", " content"]`. -/
theorem pySplitSub_label (tail2 content : List Char)
    (hc : ∀ c ∈ content, c ≠ '*') :
    pySplitSub '*' ('*' :: tail2)
        ('*' :: ' ' :: (('*' :: '*' :: tail2) ++ (' ' :: content)))
      = [['*', ' '], ' ' :: content] := by
  have h1 : pyStartsWith ('*' :: '*' :: tail2)
      ('*' :: ' ' :: (('*' :: '*' :: tail2) ++ (' ' :: content))) = false := by
    rw [pyStartsWith_cons_same]
    exact pyStartsWith_cons_diff (by decide) _ _
  have h2 : pyStartsWith ('*' :: '*' :: tail2)
      (' ' :: (('*' :: '*' :: tail2) ++ (' ' :: content))) = false :=
    pyStartsWith_cons_diff (by decide) _ _
  have h3 : pyStartsWith ('*' :: '*' :: tail2)
      (('*' :: '*' :: tail2) ++ (' ' :: content)) = true :=
    pyStartsWith_self_append _ _
  have hcontent : ∀ c ∈ (' ' :: content), c ≠ '*' := by
    intro c hcmem
    rcases List.mem_cons.mp hcmem with h | h
    · subst h; decide
    · exact hc c h
  rw [pySplitSub_cons_false h1, pySplitSub_cons_false h2]
  have hcons : ('*' :: '*' :: tail2) ++ (' ' :: content)
      = '*' :: (('*' :: tail2) ++ (' ' :: content)) := rfl
  rw [hcons] at h3 ⊢
  rw [pySplitSub_cons_true h3]
  have hdrop : ('*' :: (('*' :: tail2) ++ (' ' :: content))).drop
      (('*' :: tail2).length + 1) = ' ' :: content := by
    have heq : ('*' :: (('*' :: tail2) ++ (' ' :: content)))
        = ('*' :: '*' :: tail2) ++ (' ' :: content) := rfl
    rw [heq, List.drop_left' (by simp)]
  rw [hdrop, pySplitSub_no_occ _ hcontent]
  rfl

/-- The record produced by parsing one well-formed block body. -/
def mkRecord (d p k : List Char) : CategoryRecord :=
  ⟨some (pyStrip d), some (pyStripChar '*' (pyStrip p)),
    some ((pySplitChar ',' k).map pyStrip)⟩

theorem scanLine_descLine (details : CategoryRecord) {d : List Char}
    (hd : cleanContent d) :
    scanLine details (descLine d)
      = ⟨some (pyStrip d), details.research_prompt,
          details.key_concepts⟩ := by
  have hshape : descLine d = "* **Description:**".toList ++ (' ' :: d) := by
    unfold descLine
    rfl
  have hcond : pyStartsWith ("* **Description:**".toList) (descLine d)
      = true := by
    rw [hshape]; exact pyStartsWith_self_append _ _
  have hsplit : pySplitSub '*' descLabelTail (descLine d)
      = [['*', ' '], ' ' :: d] := by
    have : descLine d = '*' :: ' '
        :: (('*' :: '*' :: "Description:**".toList) ++ (' ' :: d)) := rfl
    rw [this]
    exact pySplitSub_label _ _ (cleanContent_no_star hd)
  unfold scanLine
  rw [hcond]
  simp only [eq_self_iff_true, if_true, hsplit]
  rw [show ([['*', ' '], ' ' :: d].getD 1 []) = ' ' :: d from rfl,
    pyStrip_cons_space]

theorem scanLine_promptLine (details : CategoryRecord) {p : List Char}
    (hp : cleanContent p) :
    scanLine details (promptLine p)
      = ⟨details.description, some (pyStripChar '*' (pyStrip p)),
          details.key_concepts⟩ := by
  have hc1 : pyStartsWith ("* **Description:**".toList) (promptLine p)
      = false := by
    unfold promptLine
    rw [pyStartsWith_of_longer _ _ (by decide)]
    decide
  have hshape : promptLine p
      = "* **Research Prompt:**".toList ++ (' ' :: p) := by
    unfold promptLine
    rfl
  have hc2 : pyStartsWith ("* **Research Prompt:**".toList)
      (promptLine p) = true := by
    rw [hshape]; exact pyStartsWith_self_append _ _
  have hsplit : pySplitSub '*' promptLabelTail (promptLine p)
      = [['*', ' '], ' ' :: p] := by
    have : promptLine p = '*' :: ' '
        :: (('*' :: '*' :: "Research Prompt:**".toList) ++ (' ' :: p)) := rfl
    rw [this]
    exact pySplitSub_label _ _ (cleanContent_no_star hp)
  unfold scanLine
  rw [hc1, hc2]
  simp only [Bool.false_eq_true, if_false, eq_self_iff_true, if_true,
    hsplit]
  rw [show ([['*', ' '], ' ' :: p].getD 1 []) = ' ' :: p from rfl,
    pyStrip_cons_space]

theorem scanLine_conceptsLine (details : CategoryRecord) {k : List Char}
    (hk : cleanContent k) :
    scanLine details (conceptsLine k)
      = ⟨details.description, details.research_prompt,
          some ((pySplitChar ',' (pyStrip k)).map pyStrip)⟩ := by
  have hc1 : pyStartsWith ("* **Description:**".toList) (conceptsLine k)
      = false := by
    unfold conceptsLine
    rw [pyStartsWith_of_longer _ _ (by decide)]
    decide
  have hc2 : pyStartsWith ("* **Research Prompt:**".toList)
      (conceptsLine k) = false := by
    show pyStartsWith ('*' :: ' ' :: '*' :: '*'
        :: "Research Prompt:**".toList)
      ('*' :: ' ' :: '*' :: '*' :: ("Key Concepts:** ".toList ++ k)) = false
    rw [pyStartsWith_cons_same, pyStartsWith_cons_same,
      pyStartsWith_cons_same, pyStartsWith_cons_same]
    exact pyStartsWith_cons_diff (by decide) _ _
  have hshape : conceptsLine k
      = "* **Key Concepts:**".toList ++ (' ' :: k) := by
    unfold conceptsLine
    rfl
  have hc3 : pyStartsWith ("* **Key Concepts:**".toList)
      (conceptsLine k) = true := by
    rw [hshape]; exact pyStartsWith_self_append _ _
  have hsplit : pySplitSub '*' conceptsLabelTail (conceptsLine k)
      = [['*', ' '], ' ' :: k] := by
    have : conceptsLine k = '*' :: ' '
        :: (('*' :: '*' :: "Key Concepts:**".toList) ++ (' ' :: k)) := rfl
    rw [this]
    exact pySplitSub_label _ _ (cleanContent_no_star hk)
  unfold scanLine
  rw [hc1, hc2, hc3]
  simp only [Bool.false_eq_true, if_false, eq_self_iff_true, if_true,
    hsplit]
  rw [show ([['*', ' '], ' ' :: k].getD 1 []) = ' ' :: k from rfl,
    pyStrip_cons_space]

/-- The block body minus its final newline: what `strip()` leaves. -/
def blockInner (name d p k : List Char) : List Char :=
  name ++ ('\n' :: descLine d) ++ ('\n' :: promptLine p)
    ++ ('\n' :: conceptsLine k)

theorem no_newline_append {a b : List Char} (ha : ∀ c ∈ a, c ≠ '\n')
    (hb : ∀ c ∈ b, c ≠ '\n') : ∀ c ∈ a ++ b, c ≠ '\n' := fun c hc =>
  (List.mem_append.mp hc).elim (ha c) (hb c)

/-- Python `strip()` of a string ending in a single newline, with clean edges
otherwise. -/
theorem pyStrip_append_newline {x : List Char} (hne : x ≠ [])
    (hh : isPySpace (x.headD ' ') = false)
    (hl : isPySpace (x.getLastD ' ') = false) :
    pyStrip (x ++ ['\n']) = x := by
  match x, hne with
  | [c], _ =>
    have hc : isPySpace c = false := by simpa using hh
    unfold pyStrip
    rw [show [c] ++ ['\n'] = c :: ['\n'] from rfl, dropWhile_cons_false hc]
    rw [show (c :: ['\n']).reverse = '\n' :: [c] from by simp,
      List.dropWhile_cons]
    simp only [show isPySpace '\n' = true from rfl, if_true]
    rw [dropWhile_cons_false hc]
    rfl
  | c :: t :: ts, _ =>
    have htne : (t :: ts) ≠ [] := by simp
    have hdec := List.dropLast_concat_getLast htne
    have hshape : c :: t :: ts
        = (c :: (t :: ts).dropLast) ++ [(t :: ts).getLast htne] := by
      rw [List.cons_append, hdec]
    have hlast : isPySpace ((t :: ts).getLast htne) = false := by
      rw [hshape, List.getLastD_concat] at hl
      exact hl
    have hhead : isPySpace c = false := by simpa using hh
    rw [hshape, pyStrip_block hhead hlast]

/-- Splitting a well-formed block inner text on newlines yields the four
expected lines. -/
theorem pySplitChar_blockInner {name d p k : List Char}
    (hn : cleanContent name) (hd : cleanContent d) (hp : cleanContent p)
    (hk : cleanContent k) :
    pySplitChar '\n' (blockInner name d p k)
      = [name, descLine d, promptLine p, conceptsLine k] := by
  have hnd : ∀ c ∈ descLine d, c ≠ '\n' :=
    no_newline_append (by decide) (cleanContent_no_newline hd)
  have hnp : ∀ c ∈ promptLine p, c ≠ '\n' :=
    no_newline_append (by decide) (cleanContent_no_newline hp)
  have hnk : ∀ c ∈ conceptsLine k, c ≠ '\n' :=
    no_newline_append (by decide) (cleanContent_no_newline hk)
  have heq : blockInner name d p k
      = name ++ ('\n' :: (descLine d ++ ('\n' :: (promptLine p
          ++ ('\n' :: conceptsLine k))))) := by
    simp [blockInner, List.append_assoc]
  rw [heq, pySplitChar_glue (cleanContent_no_newline hn),
    pySplitChar_glue hnd, pySplitChar_glue hnp,
    pySplitChar_of_no_sep hnk]

/-- The function `parse_research_categories`' per-block action on a well-formed block
body: insert the stripped name with the three parsed fields. -/
theorem parseCategory_block (m : CategoryMap) {name d p k : List Char}
    (hname : cleanEdged name) (hd : cleanContent d) (hp : cleanContent p)
    (hk : cleanEdged k) :
    parseCategory m (blockBody name d p k)
      = dictInsert m name (mkRecord d p k) := by
  obtain ⟨hne, hnc, hnh, hnl⟩ := hname
  obtain ⟨hkne, hkc, hkh, hkl⟩ := hk
  have hinner_ne : blockInner name d p k ≠ [] := by
    simp [blockInner, hne]
  have hinner_head : (blockInner name d p k).headD ' ' = name.headD ' ' := by
    match name, hne with
    | c :: t, _ => rfl
  have hkdec := List.dropLast_concat_getLast hkne
  have hinner_last : (blockInner name d p k).getLastD ' '
      = k.getLastD ' ' := by
    have h1 : blockInner name d p k
        = (name ++ ('\n' :: descLine d) ++ ('\n' :: promptLine p)
            ++ ('\n' :: ("* **Key Concepts:** ".toList ++ k.dropLast)))
          ++ [k.getLast hkne] := by
      conv_lhs => rw [blockInner, conceptsLine, ← hkdec]
      simp [List.append_assoc]
    have h2 : k.getLastD ' ' = k.getLast hkne := by
      conv_lhs => rw [← hkdec]
      rw [List.getLastD_concat]
    rw [h1, List.getLastD_concat, h2]
  have hstrip : pyStrip (blockBody name d p k) = blockInner name d p k := by
    have hb : blockBody name d p k = blockInner name d p k ++ ['\n'] := rfl
    rw [hb]
    exact pyStrip_append_newline hinner_ne
      (by rw [hinner_head]; exact hnh)
      (by rw [hinner_last]; exact hkl)
  have hlines := pySplitChar_blockInner hnc hd hp hkc
  simp only [parseCategory]
  rw [hstrip, hlines]
  have hheadD : ([name, descLine d, promptLine p,
      conceptsLine k].headD []) = name := rfl
  have hdrop1 : ([name, descLine d, promptLine p,
      conceptsLine k].drop 1) = [descLine d, promptLine p,
        conceptsLine k] := rfl
  rw [hheadD, hdrop1, pyStripChar_eq_self (cleanContent_no_star hnc)]
  rw [List.foldl_cons, List.foldl_cons, List.foldl_cons, List.foldl_nil]
  rw [scanLine_descLine _ hd, scanLine_promptLine _ hp,
    scanLine_conceptsLine _ hkc]
  rw [pyStrip_eq_self hkne hkh hkl]
  rfl

theorem splitMarkers_self {b : List Char} (h : noMarkerSuffix b []) :
    splitMarkers b = [b] := by
  have h2 := splitMarkers_append h
  rw [List.append_nil] at h2
  rw [h2, splitMarkers_nil]
  simp [consAll]

theorem splitMarkers_marker_block {dch : Char} (hdch : dch.isDigit = true)
    {name d p k : List Char} (hname : cleanEdged name) (R : List Char) :
    splitMarkers (blockMarker dch ++ (blockBody name d p k ++ R))
      = [] :: splitMarkers (blockBody name d p k ++ R) := by
  obtain ⟨hne, _, hnh, _⟩ := hname
  match name, hne with
  | c :: t, _ =>
    have hc : isPySpace c = false := by simpa using hnh
    obtain ⟨T, hT⟩ : ∃ T, blockBody (c :: t) d p k ++ R = c :: T := ⟨_, rfl⟩
    have hmk : blockMarker dch ++ (blockBody (c :: t) d p k ++ R)
        = '*' :: '*' :: dch :: '.' :: ' '
          :: (blockBody (c :: t) d p k ++ R) := rfl
    rw [hmk, hT, splitMarkers_cons_some (markerMatch_block hdch hc T), ← hT]

theorem splitMarkers_marker_block_end {dch : Char}
    (hdch : dch.isDigit = true) {name d p k : List Char}
    (hname : cleanEdged name) :
    splitMarkers (blockMarker dch ++ blockBody name d p k)
      = [] :: splitMarkers (blockBody name d p k) := by
  have h := splitMarkers_marker_block hdch hname (R := []) (d := d)
    (p := p) (k := k)
  rwa [List.append_nil] at h

/-- The three-block response text of C2. -/
def mkThree (n1 d1 p1 k1 n2 d2 p2 k2 n3 d3 p3 k3 : List Char) :
    List Char :=
  blockMarker '1' ++ blockBody n1 d1 p1 k1
    ++ blockMarker '2' ++ blockBody n2 d2 p2 k2
    ++ blockMarker '3' ++ blockBody n3 d3 p3 k3

/-- The two-block response text of C10, both blocks named alike. -/
def mkTwo (n1 d1 p1 k1 n2 d2 p2 k2 : List Char) : List Char :=
  blockMarker '1' ++ blockBody n1 d1 p1 k1
    ++ blockMarker '2' ++ blockBody n2 d2 p2 k2

theorem splitMarkers_mkThree {n1 d1 p1 k1 n2 d2 p2 k2 n3 d3 p3 k3 :
      List Char}
    (h1 : cleanEdged n1) (h2 : cleanEdged n2) (h3 : cleanEdged n3)
    (hd1 : cleanContent d1) (hp1 : cleanContent p1) (hk1 : cleanContent k1)
    (hd2 : cleanContent d2) (hp2 : cleanContent p2) (hk2 : cleanContent k2)
    (hd3 : cleanContent d3) (hp3 : cleanContent p3)
    (hk3 : cleanContent k3) :
    splitMarkers (mkThree n1 d1 p1 k1 n2 d2 p2 k2 n3 d3 p3 k3)
      = [[], blockBody n1 d1 p1 k1, blockBody n2 d2 p2 k2,
          blockBody n3 d3 p3 k3] := by
  have e : mkThree n1 d1 p1 k1 n2 d2 p2 k2 n3 d3 p3 k3
      = blockMarker '1' ++ (blockBody n1 d1 p1 k1
        ++ (blockMarker '2' ++ (blockBody n2 d2 p2 k2
          ++ (blockMarker '3' ++ blockBody n3 d3 p3 k3)))) := by
    simp [mkThree, List.append_assoc]
  rw [e, splitMarkers_marker_block (by decide) h1,
    splitMarkers_append (noMarkerSuffix_blockBody _ h1.2.1 hd1 hp1 hk1),
    splitMarkers_marker_block (by decide) h2,
    splitMarkers_append (noMarkerSuffix_blockBody _ h2.2.1 hd2 hp2 hk2),
    splitMarkers_marker_block_end (by decide) h3,
    splitMarkers_self (noMarkerSuffix_blockBody _ h3.2.1 hd3 hp3 hk3)]
  simp [consAll]

theorem splitMarkers_mkTwo {n1 d1 p1 k1 n2 d2 p2 k2 : List Char}
    (h1 : cleanEdged n1) (h2 : cleanEdged n2)
    (hd1 : cleanContent d1) (hp1 : cleanContent p1) (hk1 : cleanContent k1)
    (hd2 : cleanContent d2) (hp2 : cleanContent p2)
    (hk2 : cleanContent k2) :
    splitMarkers (mkTwo n1 d1 p1 k1 n2 d2 p2 k2)
      = [[], blockBody n1 d1 p1 k1, blockBody n2 d2 p2 k2] := by
  have e : mkTwo n1 d1 p1 k1 n2 d2 p2 k2
      = blockMarker '1' ++ (blockBody n1 d1 p1 k1
        ++ (blockMarker '2' ++ blockBody n2 d2 p2 k2)) := by
    simp [mkTwo, List.append_assoc]
  rw [e, splitMarkers_marker_block (by decide) h1,
    splitMarkers_append (noMarkerSuffix_blockBody _ h1.2.1 hd1 hp1 hk1),
    splitMarkers_marker_block_end (by decide) h2,
    splitMarkers_self (noMarkerSuffix_blockBody _ h2.2.1 hd2 hp2 hk2)]
  simp [consAll]

/-! ## Claim theorems (first batch) -/

/-- C9: for a requested count of 0, `generate_research_prompts` returns the
empty sequence on every `CategoryMap` (including the empty one), for every
random stream, without error. -/
theorem generate_prompts_zero_returns_empty
    (research_dict : CategoryMap) (r : Nat → Nat × Bool × Nat) :
    generate_research_prompts research_dict 0 r = some [] := rfl

/-- C3: on an empty `CategoryMap` and any positive requested count,
`generate_research_prompts` reaches `random.choice` on the empty key list
and aborts with an uncaught `IndexError` (modelled as `none`), for every
random stream — it does not coerce the count to 0 and return an empty
sequence as the spec requires. -/
theorem generate_prompts_empty_map_crashes
    (n : Nat) (r : Nat → Nat × Bool × Nat) :
    generate_research_prompts [] (n + 1) r = none := rfl

/-- C4: a category record with an absent `research_prompt` and absent or
empty `key_concepts` makes `generate_research_prompts` abort with an
uncaught `KeyError`/`IndexError` (modelled as `none`) whenever that
category is selected — under either outcome of the coin flip — instead of
falling back deterministically as the spec requires. -/
theorem generate_prompts_missing_fields_crash (b : Bool) (k : Nat) :
    generate_research_prompts [(('A' :: []), emptyRecord)] 1
        (fun _ => (0, b, k)) = none
    ∧ generate_research_prompts
        [(('A' :: []), { emptyRecord with key_concepts := some [] })] 1
        (fun _ => (0, false, k)) = none := by
  constructor
  · cases b <;> rfl
  · rfl

/-- C8: parsing is deterministic — two calls of
`parse_research_categories` on identical input text yield identical
`CategoryMap`s. -/
theorem parse_research_categories_deterministic (t1 t2 : List Char)
    (h : t1 = t2) :
    parse_research_categories t1 = parse_research_categories t2 := by
  rw [h]

/-- Witness for C8 at a concrete input. -/
theorem parse_research_categories_deterministic_witness :
    parse_research_categories "**1. A\n* **Description:** d".toList
      = parse_research_categories "**1. A\n* **Description:** d".toList :=
  parse_research_categories_deterministic _ _ rfl

/-- C7: an input containing no occurrence of the `**N. ` marker pattern
(no suffix matches the regex) parses to the empty `CategoryMap`, without
error. -/
theorem parse_research_categories_no_marker (text : List Char)
    (h : ∀ t ∈ text.tails, markerMatch t = none) :
    parse_research_categories text = [] := by
  unfold parse_research_categories
  rw [splitMarkers_of_no_marker h]
  rfl

/-- Witness for C7 at a concrete marker-free input. -/
theorem parse_research_categories_no_marker_witness :
    (∀ t ∈ ("Sorry, I cannot format that. * 1. x".toList).tails,
        markerMatch t = none)
    ∧ parse_research_categories "Sorry, I cannot format that. * 1. x".toList
        = [] :=
  ⟨by decide, parse_research_categories_no_marker _ (by decide)⟩

/-- C5: `format_output` on a successful response with content `X` and
citations `http://a`, `http://b` produces exactly the content followed by a
`Sources:` section listing the two URLs, each on its own line, in order;
and on the `None` sentinel it produces the fixed no-response message. -/
theorem format_output_spec (content : List Char) :
    format_output (some ⟨content, [⟨"http://a".toList⟩, ⟨"http://b".toList⟩]⟩)
      = "\nResearch Results:\n\n".toList ++ content
        ++ "\n\nSources:\n- http://a\n- http://b\n".toList
    ∧ format_output none = "No response received from Perplexity AI.".toList := by
  constructor
  · simp only [format_output, List.foldl]
    rw [List.append_assoc ("\nResearch Results:\n\n".toList ++ content)]
    exact congrArg _ rfl
  · rfl

/-- C6: `query_perplexity` issues exactly one request, that request carries
`timeout=30`, and on a raised transport exception or an HTTP status in
`[400, 600)` (which `raise_for_status` turns into a caught exception) it
returns the sentinel `none` rather than propagating the fault. -/
theorem query_perplexity_single_attempt
    (transport : PerplexityRequest → TransportResult)
    (prompt api_key : List Char) :
    (query_perplexity transport prompt api_key).2
        = [perplexityRequest prompt api_key]
    ∧ (perplexityRequest prompt api_key).timeout = 30
    ∧ (∀ msg, transport (perplexityRequest prompt api_key) = .exn msg →
        (query_perplexity transport prompt api_key).1 = none)
    ∧ (∀ status body,
        transport (perplexityRequest prompt api_key) = .ok status body →
        400 ≤ status → status < 600 →
        (query_perplexity transport prompt api_key).1 = none) := by
  refine ⟨?_, rfl, ?_, ?_⟩
  · rcases htr : transport (perplexityRequest prompt api_key) with ⟨s, b⟩ | m
    · by_cases hs : 400 ≤ s ∧ s < 600 <;>
        simp [query_perplexity, htr, hs]
    · simp [query_perplexity, htr]
  · intro msg hmsg
    simp [query_perplexity, hmsg]
  · intro status body hok h4 h6
    simp [query_perplexity, hok, h4, h6]

/-! ## The prompt sampler on well-formed maps (C1) -/

/-- A prompt is sound for a map when it is some category's verbatim
`research_prompt`, or the synthesized template over a category of the map
and a key concept of that same category. -/
def goodPrompt (research_dict : CategoryMap) (p : List Char) : Prop :=
  (∃ e ∈ research_dict, e.2.research_prompt = some p)
  ∨ (∃ e ∈ research_dict, ∃ ks, e.2.key_concepts = some ks
      ∧ ∃ c ∈ ks, p = synthPrompt c e.1)

theorem randChoice_eq_some {α : Type} {xs : List α} (h : xs ≠ []) (r : Nat) :
    ∃ x, randChoice xs r = some x ∧ x ∈ xs := by
  have hlen : 0 < xs.length := List.length_pos.mpr h
  have hlt : r % xs.length < xs.length := Nat.mod_lt _ hlen
  refine ⟨xs.get ⟨r % xs.length, hlt⟩, ?_, List.get_mem _ _ _⟩
  simp [randChoice, List.get?_eq_get hlt]

theorem dictGet_mem {m : CategoryMap} {k : List Char} {v : CategoryRecord}
    (h : dictGet m k = some v) : (k, v) ∈ m := by
  induction m with
  | nil => simp [dictGet] at h
  | cons e rest ih =>
    rcases e with ⟨k', v'⟩
    simp only [dictGet] at h
    by_cases hk : k' = k
    · rw [if_pos hk] at h
      simp only [Option.some.injEq] at h
      subst hk; subst h
      exact List.mem_cons_self _ _
    · rw [if_neg hk] at h
      exact List.mem_cons_of_mem _ (ih h)

theorem dictGet_of_mem_keys {m : CategoryMap} {k : List Char}
    (h : k ∈ m.map Prod.fst) : ∃ v, dictGet m k = some v := by
  induction m with
  | nil => simp at h
  | cons e rest ih =>
    rcases e with ⟨k', v'⟩
    simp only [List.map_cons, List.mem_cons] at h
    by_cases hk : k' = k
    · exact ⟨v', by simp [dictGet, hk]⟩
    · rcases h with h | h
      · exact absurd h.symm hk
      · obtain ⟨v, hv⟩ := ih h
        exact ⟨v, by simp [dictGet, hk, hv]⟩

theorem sampleOne_sound {research_dict : CategoryMap}
    (hne : research_dict ≠ [])
    (hfull : ∀ e ∈ research_dict, e.2.research_prompt.isSome
      ∧ ∃ ks, e.2.key_concepts = some ks ∧ ks ≠ [])
    (step : Nat × Bool × Nat) :
    ∃ p, sampleOne research_dict step = some p
      ∧ goodPrompt research_dict p := by
  have hkeys : research_dict.map Prod.fst ≠ [] := by
    simpa using hne
  obtain ⟨category, hc, hcmem⟩ := randChoice_eq_some hkeys step.1
  obtain ⟨data, hdg⟩ := dictGet_of_mem_keys hcmem
  have hmem : (category, data) ∈ research_dict := dictGet_mem hdg
  obtain ⟨hrp, ks, hks, hksne⟩ := hfull _ hmem
  dsimp only at hrp hks
  by_cases hcoin : step.2.1
  · obtain ⟨p, hp⟩ := Option.isSome_iff_exists.mp hrp
    refine ⟨p, ?_, Or.inl ⟨(category, data), hmem, hp⟩⟩
    simp [sampleOne, hc, hdg, hcoin, hp]
  · obtain ⟨c, hcc, hcmem2⟩ := randChoice_eq_some hksne step.2.2
    refine ⟨synthPrompt c category, ?_,
      Or.inr ⟨(category, data), hmem, ks, hks, c, hcmem2, rfl⟩⟩
    simp [sampleOne, hc, hdg, hcoin, hks, hcc]

theorem genGo_sound {research_dict : CategoryMap}
    (hne : research_dict ≠ [])
    (hfull : ∀ e ∈ research_dict, e.2.research_prompt.isSome
      ∧ ∃ ks, e.2.key_concepts = some ks ∧ ks ≠ [])
    (r : Nat → Nat × Bool × Nat) :
    ∀ n i, ∃ ps, genGo research_dict r i n = some ps
      ∧ ps.length = n ∧ ∀ p ∈ ps, goodPrompt research_dict p := by
  intro n
  induction n with
  | zero => exact fun i => ⟨[], rfl, rfl, by simp⟩
  | succ n ih =>
    intro i
    obtain ⟨p, hp, hgood⟩ := sampleOne_sound hne hfull (r i)
    obtain ⟨ps, hps, hlen, hall⟩ := ih (i + 1)
    refine ⟨p :: ps, ?_, by simp [hlen], ?_⟩
    · simp only [genGo]
      rw [hp, hps]
      rfl
    · intro q hq
      rcases List.mem_cons.mp hq with h | h
      · subst h; exact hgood
      · exact hall q h

/-- C1: on a nonempty `CategoryMap` whose records all carry a
`research_prompt` and a nonempty `key_concepts` list, and for every
positive requested count `n` and every random stream,
`generate_research_prompts` returns exactly `n` prompts, each either some
category's verbatim `research_prompt` or the fixed template instantiated
with the lower-cased name of a category of the map and the lower-cased
form of a key concept of that same category. -/
theorem generate_prompts_shape (research_dict : CategoryMap)
    (hne : research_dict ≠ [])
    (hfull : ∀ e ∈ research_dict, e.2.research_prompt.isSome
      ∧ ∃ ks, e.2.key_concepts = some ks ∧ ks ≠ [])
    (n : Nat) (hn : 0 < n) (r : Nat → Nat × Bool × Nat) :
    ∃ ps, generate_research_prompts research_dict n r = some ps
      ∧ ps.length = n ∧ ∀ p ∈ ps, goodPrompt research_dict p :=
  genGo_sound hne hfull r n 0

/-- Witness for C1 at a concrete one-category map. -/
theorem generate_prompts_shape_witness :
    ([(('A' :: []), CategoryRecord.mk none (some ('P' :: []))
        (some [('k' :: [])]))] ≠ [] ∧ 0 < 1
      ∧ ∀ e ∈ [(('A' :: []), CategoryRecord.mk none (some ('P' :: []))
          (some [('k' :: [])]))], e.2.research_prompt.isSome
          ∧ ∃ ks, e.2.key_concepts = some ks ∧ ks ≠ [])
    ∧ ∃ ps, generate_research_prompts
        [(('A' :: []), CategoryRecord.mk none (some ('P' :: []))
          (some [('k' :: [])]))] 1 (fun _ => (0, true, 0)) = some ps
        ∧ ps.length = 1
        ∧ ∀ p ∈ ps, goodPrompt
            [(('A' :: []), CategoryRecord.mk none (some ('P' :: []))
              (some [('k' :: [])]))] p := by
  have hfull : ∀ e ∈ [(('A' :: []), CategoryRecord.mk none (some ('P' :: []))
      (some [('k' :: [])]))], e.2.research_prompt.isSome
      ∧ ∃ ks, e.2.key_concepts = some ks ∧ ks ≠ [] := by
    intro e he
    simp only [List.mem_singleton] at he
    subst he
    exact ⟨rfl, [('k' :: [])], rfl, by simp⟩
  exact ⟨⟨by simp, Nat.one_pos, hfull⟩,
    generate_prompts_shape _ (by simp) hfull 1 Nat.one_pos _⟩

/-- C2: a text of exactly three `**N. ` blocks, each with a well-formed
name line and description / research-prompt / key-concepts bullet lines
(contents free of `*` and newlines, names and concept strings nonempty
with clean edges, names pairwise distinct), parses to a `CategoryMap`
with exactly those three keys, each record carrying all three fields,
with `key_concepts` the comma-split of the text after the label, each
element stripped of surrounding whitespace. -/
theorem parse_three_blocks
    (n1 d1 p1 k1 n2 d2 p2 k2 n3 d3 p3 k3 : List Char)
    (h1 : cleanEdged n1) (h2 : cleanEdged n2) (h3 : cleanEdged n3)
    (hd1 : cleanContent d1) (hp1 : cleanContent p1) (hk1 : cleanEdged k1)
    (hd2 : cleanContent d2) (hp2 : cleanContent p2) (hk2 : cleanEdged k2)
    (hd3 : cleanContent d3) (hp3 : cleanContent p3) (hk3 : cleanEdged k3)
    (hne12 : n1 ≠ n2) (hne13 : n1 ≠ n3) (hne23 : n2 ≠ n3) :
    parse_research_categories
        (mkThree n1 d1 p1 k1 n2 d2 p2 k2 n3 d3 p3 k3)
      = [(n1, mkRecord d1 p1 k1), (n2, mkRecord d2 p2 k2),
          (n3, mkRecord d3 p3 k3)]
    ∧ (parse_research_categories
        (mkThree n1 d1 p1 k1 n2 d2 p2 k2 n3 d3 p3 k3)).length = 3 := by
  have hsm := splitMarkers_mkThree h1 h2 h3 hd1 hp1 hk1.2.1 hd2 hp2
    hk2.2.1 hd3 hp3 hk3.2.1
  have hmain : parse_research_categories
      (mkThree n1 d1 p1 k1 n2 d2 p2 k2 n3 d3 p3 k3)
      = [(n1, mkRecord d1 p1 k1), (n2, mkRecord d2 p2 k2),
          (n3, mkRecord d3 p3 k3)] := by
    unfold parse_research_categories
    rw [hsm]
    rw [show ([[], blockBody n1 d1 p1 k1, blockBody n2 d2 p2 k2,
      blockBody n3 d3 p3 k3].drop 1) = [blockBody n1 d1 p1 k1,
        blockBody n2 d2 p2 k2, blockBody n3 d3 p3 k3] from rfl]
    rw [List.foldl_cons, List.foldl_cons, List.foldl_cons, List.foldl_nil]
    rw [parseCategory_block _ h1 hd1 hp1 hk1,
      parseCategory_block _ h2 hd2 hp2 hk2,
      parseCategory_block _ h3 hd3 hp3 hk3]
    simp [dictInsert, hne12, hne13, hne23]
  exact ⟨hmain, by rw [hmain]; rfl⟩

/-- Witness for C2 at concrete block contents; the last conjunct shows
the concrete comma-splitting `A, B,C` into `A`, `B`, `C`. -/
theorem parse_three_blocks_witness :
    (cleanEdged "Alpha".toList ∧ cleanEdged "Beta".toList
      ∧ cleanEdged "Gamma".toList ∧ cleanContent "d one".toList
      ∧ cleanContent "P one?".toList ∧ cleanEdged "A, B,C".toList
      ∧ "Alpha".toList ≠ "Beta".toList)
    ∧ parse_research_categories
        (mkThree "Alpha".toList "d one".toList "P one?".toList
          "A, B,C".toList "Beta".toList "d two".toList "P two?".toList
          "k2".toList "Gamma".toList "d three".toList "P three?".toList
          "k3".toList)
      = [("Alpha".toList, mkRecord "d one".toList "P one?".toList
            "A, B,C".toList),
          ("Beta".toList, mkRecord "d two".toList "P two?".toList
            "k2".toList),
          ("Gamma".toList, mkRecord "d three".toList "P three?".toList
            "k3".toList)]
    ∧ mkRecord "d one".toList "P one?".toList "A, B,C".toList
      = ⟨some "d one".toList, some "P one?".toList,
          some ["A".toList, "B".toList, "C".toList]⟩ := by
  refine ⟨by refine ⟨?_, ?_, ?_, ?_, ?_, ?_, ?_⟩ <;> decide, ?_, by decide⟩
  exact (parse_three_blocks "Alpha".toList "d one".toList "P one?".toList
    "A, B,C".toList "Beta".toList "d two".toList "P two?".toList
    "k2".toList "Gamma".toList "d three".toList "P three?".toList
    "k3".toList (by decide) (by decide) (by decide) (by decide)
    (by decide) (by decide) (by decide) (by decide) (by decide)
    (by decide) (by decide) (by decide) (by decide) (by decide)
    (by decide)).1

/-- C10: two `**N. ` blocks carrying the same category name parse to a
map with a single key holding the record of the **last** block: later
blocks overwrite earlier ones, so the key count (1) is strictly smaller
than the number of marker blocks (2). -/
theorem parse_duplicate_name (n d1 p1 k1 d2 p2 k2 : List Char)
    (hn : cleanEdged n)
    (hd1 : cleanContent d1) (hp1 : cleanContent p1) (hk1 : cleanEdged k1)
    (hd2 : cleanContent d2) (hp2 : cleanContent p2) (hk2 : cleanEdged k2) :
    parse_research_categories (mkTwo n d1 p1 k1 n d2 p2 k2)
      = [(n, mkRecord d2 p2 k2)]
    ∧ (parse_research_categories (mkTwo n d1 p1 k1 n d2 p2 k2)).length
        < 2 := by
  have hsm := splitMarkers_mkTwo hn hn hd1 hp1 hk1.2.1 hd2 hp2 hk2.2.1
  have hmain : parse_research_categories (mkTwo n d1 p1 k1 n d2 p2 k2)
      = [(n, mkRecord d2 p2 k2)] := by
    unfold parse_research_categories
    rw [hsm]
    rw [show ([[], blockBody n d1 p1 k1, blockBody n d2 p2 k2].drop 1)
      = [blockBody n d1 p1 k1, blockBody n d2 p2 k2] from rfl]
    rw [List.foldl_cons, List.foldl_cons, List.foldl_nil]
    rw [parseCategory_block _ hn hd1 hp1 hk1,
      parseCategory_block _ hn hd2 hp2 hk2]
    simp [dictInsert]
  exact ⟨hmain, by rw [hmain]; simp⟩

/-- Witness for C10 at concrete contents: the surviving record is the
second block's. -/
theorem parse_duplicate_name_witness :
    (cleanEdged "Alpha".toList ∧ cleanContent "d one".toList
      ∧ cleanEdged "k1".toList)
    ∧ parse_research_categories
        (mkTwo "Alpha".toList "d one".toList "P one?".toList "k1".toList
          "Alpha".toList "d two".toList "P two?".toList "k2".toList)
      = [("Alpha".toList,
          mkRecord "d two".toList "P two?".toList "k2".toList)] := by
  refine ⟨by refine ⟨?_, ?_, ?_⟩ <;> decide, ?_⟩
  exact (parse_duplicate_name "Alpha".toList "d one".toList
    "P one?".toList "k1".toList "d two".toList "P two?".toList
    "k2".toList (by decide) (by decide) (by decide) (by decide)
    (by decide) (by decide) (by decide)).1

/-- Witness for C6: a transport that always raises yields the sentinel. -/
theorem query_perplexity_single_attempt_witness :
    (query_perplexity (fun _ => .exn "timeout".toList) "p".toList "k".toList).2
        = [perplexityRequest "p".toList "k".toList]
    ∧ (query_perplexity (fun _ => .exn "timeout".toList) "p".toList
        "k".toList).1 = none := by
  have h := query_perplexity_single_attempt
    (fun _ => TransportResult.exn "timeout".toList) "p".toList "k".toList
  exact ⟨h.1, h.2.2.1 "timeout".toList rfl⟩

end ResearchAgent
